import Mathlib

/-
  Shallow embedding of the clox single-pass expression compiler
  (src/clox/chunk.h, src/clox/chunk.c, src/clox/compiler.c).

  Machine `uint8_t` bytes are modelled as `Nat` (writes are guarded so they
  stay below 256); C `int` source lines are modelled as `Int`; the growable
  arrays become Lean lists (capacity doubling is memory management with no
  observable effect on contents).
-/

namespace Clox

/-! ## Tokens (scanner interface)

The scanner itself is an external collaborator: the compiler consumes a
token stream on demand.  A token carries its kind, the source span it
covers (here the spanned text itself) and its source line. -/

inductive TokenType where
  | TOKEN_LEFT_PAREN | TOKEN_RIGHT_PAREN | TOKEN_LEFT_BRACE | TOKEN_RIGHT_BRACE
  | TOKEN_COMMA | TOKEN_DOT | TOKEN_MINUS | TOKEN_PLUS
  | TOKEN_SEMICOLON | TOKEN_SLASH | TOKEN_STAR
  | TOKEN_BANG | TOKEN_BANG_EQUAL | TOKEN_EQUAL | TOKEN_EQUAL_EQUAL
  | TOKEN_GREATER | TOKEN_GREATER_EQUAL | TOKEN_LESS | TOKEN_LESS_EQUAL
  | TOKEN_IDENTIFIER | TOKEN_STRING | TOKEN_NUMBER
  | TOKEN_AND | TOKEN_CLASS | TOKEN_ELSE | TOKEN_FALSE | TOKEN_FOR
  | TOKEN_FUN | TOKEN_IF | TOKEN_NIL | TOKEN_OR | TOKEN_PRINT
  | TOKEN_RETURN | TOKEN_SUPER | TOKEN_THIS | TOKEN_TRUE | TOKEN_VAR
  | TOKEN_WHILE | TOKEN_ERROR | TOKEN_EOF
  deriving DecidableEq, Repr

open TokenType

structure Token where
  type : TokenType
  lexeme : String
  line : Int
  deriving DecidableEq, Repr

/-- Modelled from the spec: runtime values are opaque constant handles the
compiler only stores and references (`value.h`/`object.h` are outside the
captured core).  A numeric literal's handle is identified by its source
lexeme (standing for the `strtod` result), a string handle by its copied
character contents. -/
inductive Value where
  | number (lexeme : String)
  | obj (chars : String)
  deriving DecidableEq, Repr

/-! ## Opcodes (chunk.h)

`chunk.h` declares `OP_CONSTANT .. OP_RETURN` with the C enum values 0..6.
`compiler.c` additionally references the dedicated zero-operand opcodes for
nil/true/false and the three native comparison primitives plus logical not;
per the spec these are further members of the opcode enumeration, modelled
here with the next free byte values. -/

def OP_CONSTANT : Nat := 0
def OP_ADD : Nat := 1
def OP_SUBTRACT : Nat := 2
def OP_MULTIPLY : Nat := 3
def OP_DIVIDE : Nat := 4
def OP_NEGATE : Nat := 5
def OP_RETURN : Nat := 6
def OP_NIL : Nat := 7
def OP_TRUE : Nat := 8
def OP_FALSE : Nat := 9
def OP_EQUAL : Nat := 10
def OP_GREATER : Nat := 11
def OP_LESS : Nat := 12
def OP_NOT : Nat := 13

/-! ## Chunk (chunk.h / chunk.c) -/

/-- `struct Line` of chunk.h: one run of the run-length-encoded line index. -/
structure Line where
  line : Int
  count : Nat
  deriving DecidableEq, Repr

/-- `struct Chunk` of chunk.h: instruction bytes, RLE line index, constant
pool.  `count`/`capacity`/`lineCnt`/`lineCap` are the list lengths and the
allocation bookkeeping, which has no observable content. -/
structure Chunk where
  code : List Nat
  lines : List Line
  constants : List Value
  deriving DecidableEq, Repr

/-- `initChunk` of chunk.c: everything empty. -/
def initChunk : Chunk := ⟨[], [], []⟩

/-- The loop body of `getLine` in chunk.c: walk the recorded runs,
returning the run's line once its length covers the remaining budget,
otherwise subtracting it.  The C function is declared `int` but has no
return statement after the loop; falling off the end is modelled as
`none`. -/
def getLineGo : List Line → Nat → Option Int
  | [], _ => none
  | l :: rest, count =>
      if l.count ≥ count then some l.line
      else getLineGo rest (count - l.count)

/-- `getLine` of chunk.c: `count` starts at `index + 1`. -/
def getLine (chunk : Chunk) (index : Nat) : Option Int :=
  getLineGo chunk.lines (index + 1)

/-- `chunk->lines[chunk->lineCnt-1].count++` of `writeChunk`: increment the
run-length of the last recorded pair (no-op on an empty index; in the C
code the index is never empty at this point). -/
def bumpLast : List Line → List Line
  | [] => []
  | [l] => [⟨l.line, l.count + 1⟩]
  | l :: rest => l :: bumpLast rest

/-- `writeChunk` of chunk.c: append the byte; start a fresh `(line, 0)`
pair when the index is empty or the line differs from the last recorded
pair; then increment the last pair's run-length. -/
def writeChunk (chunk : Chunk) (byte : Nat) (line : Int) : Chunk :=
  let lines :=
    if chunk.lines = [] ∨ line ≠ (chunk.lines.getLastD ⟨0, 0⟩).line then
      chunk.lines ++ [⟨line, 0⟩]
    else
      chunk.lines
  { chunk with code := chunk.code ++ [byte], lines := bumpLast lines }

/-- `addConstant` of chunk.c: append to the pool, return the new value's
index (`constants.count - 1` after the append). -/
def addConstant (chunk : Chunk) (value : Value) : Chunk × Nat :=
  ({ chunk with constants := chunk.constants ++ [value] }, chunk.constants.length)

/-! ## Compiler (compiler.c)

The C file keeps its state in the globals `parser` (current/previous token
and the two error flags) and `compilingChunk`, reads tokens from the
scanner, and prints diagnostics to stderr.  All of that is gathered into
one explicit state record threaded through every function. -/

/-- `struct Parser` of compiler.c. -/
structure Parser where
  current : Token
  previous : Token
  hadError : Bool
  panicMode : Bool
  deriving DecidableEq, Repr

/-- The whole compile-time context: the `Parser` global, the target chunk
(`compilingChunk`), the tokens the scanner has not yet produced, and the
diagnostic lines printed to stderr so far. -/
structure CompilerState where
  parser : Parser
  chunk : Chunk
  tokens : List Token
  diags : List String
  deriving DecidableEq, Repr

/-- The `Precedence` enum of compiler.c (C enum values 0..10). -/
def PREC_NONE : Nat := 0
def PREC_ASSIGNMENT : Nat := 1
def PREC_OR : Nat := 2
def PREC_AND : Nat := 3
def PREC_EQUALITY : Nat := 4
def PREC_COMPARISON : Nat := 5
def PREC_TERM : Nat := 6
def PREC_FACTOR : Nat := 7
def PREC_UNARY : Nat := 8
def PREC_CALL : Nat := 9
def PREC_PRIMARY : Nat := 10

/-- The prefix parse actions appearing in the `rules` table.  The C table
stores function pointers; here each pointer is a tag dispatched where the
pointer would be called. -/
inductive PrefixAction where
  | grouping | unary | number | string | literal
  deriving DecidableEq, Repr

/-- The infix parse actions appearing in the `rules` table (only
`binary`). -/
inductive InfixAction where
  | binary
  deriving DecidableEq, Repr

/-- `struct ParseRule` of compiler.c; `NULL` entries become `none`. -/
structure ParseRule where
  prefixFn : Option PrefixAction
  infixFn : Option InfixAction
  precedence : Nat
  deriving DecidableEq, Repr

/-- The `rules` table of compiler.c, and `getRule` reading it. -/
def getRule : TokenType → ParseRule
  | TOKEN_LEFT_PAREN => ⟨some .grouping, none, PREC_NONE⟩
  | TOKEN_RIGHT_PAREN => ⟨none, none, PREC_NONE⟩
  | TOKEN_LEFT_BRACE => ⟨none, none, PREC_NONE⟩
  | TOKEN_RIGHT_BRACE => ⟨none, none, PREC_NONE⟩
  | TOKEN_COMMA => ⟨none, none, PREC_NONE⟩
  | TOKEN_DOT => ⟨none, none, PREC_NONE⟩
  | TOKEN_MINUS => ⟨some .unary, some .binary, PREC_TERM⟩
  | TOKEN_PLUS => ⟨none, some .binary, PREC_TERM⟩
  | TOKEN_SEMICOLON => ⟨none, none, PREC_NONE⟩
  | TOKEN_SLASH => ⟨none, some .binary, PREC_FACTOR⟩
  | TOKEN_STAR => ⟨none, some .binary, PREC_FACTOR⟩
  | TOKEN_BANG => ⟨some .unary, none, PREC_NONE⟩
  | TOKEN_BANG_EQUAL => ⟨none, some .binary, PREC_EQUALITY⟩
  | TOKEN_EQUAL => ⟨none, none, PREC_NONE⟩
  | TOKEN_EQUAL_EQUAL => ⟨none, some .binary, PREC_EQUALITY⟩
  | TOKEN_GREATER => ⟨none, some .binary, PREC_COMPARISON⟩
  | TOKEN_GREATER_EQUAL => ⟨none, some .binary, PREC_COMPARISON⟩
  | TOKEN_LESS => ⟨none, some .binary, PREC_COMPARISON⟩
  | TOKEN_LESS_EQUAL => ⟨none, some .binary, PREC_COMPARISON⟩
  | TOKEN_IDENTIFIER => ⟨none, none, PREC_NONE⟩
  | TOKEN_STRING => ⟨some .string, none, PREC_NONE⟩
  | TOKEN_NUMBER => ⟨some .number, none, PREC_NONE⟩
  | TOKEN_AND => ⟨none, none, PREC_NONE⟩
  | TOKEN_CLASS => ⟨none, none, PREC_NONE⟩
  | TOKEN_ELSE => ⟨none, none, PREC_NONE⟩
  | TOKEN_FALSE => ⟨some .literal, none, PREC_NONE⟩
  | TOKEN_FOR => ⟨none, none, PREC_NONE⟩
  | TOKEN_FUN => ⟨none, none, PREC_NONE⟩
  | TOKEN_IF => ⟨none, none, PREC_NONE⟩
  | TOKEN_NIL => ⟨some .literal, none, PREC_NONE⟩
  | TOKEN_OR => ⟨none, none, PREC_NONE⟩
  | TOKEN_PRINT => ⟨none, none, PREC_NONE⟩
  | TOKEN_RETURN => ⟨none, none, PREC_NONE⟩
  | TOKEN_SUPER => ⟨none, none, PREC_NONE⟩
  | TOKEN_THIS => ⟨none, none, PREC_NONE⟩
  | TOKEN_TRUE => ⟨some .literal, none, PREC_NONE⟩
  | TOKEN_VAR => ⟨none, none, PREC_NONE⟩
  | TOKEN_WHILE => ⟨none, none, PREC_NONE⟩
  | TOKEN_ERROR => ⟨none, none, PREC_NONE⟩
  | TOKEN_EOF => ⟨none, none, PREC_NONE⟩

/-- A single quote character (ASCII 39), as printed around a token's
source text in diagnostics. -/
def sq : String := String.singleton (Char.ofNat 39)

/-- The text `errorAt` of compiler.c prints to stderr for one diagnostic
(one line; the trailing newline of the final `fprintf` is left implicit).
Note the `TOKEN_EOF` branch of the C code prints the bare string
`"at end"`, with no space after `"Error"`. -/
def tokenErrorText (token : Token) (message : String) : String :=
  "[line " ++ toString token.line ++ "] Error" ++
    (if token.type = TOKEN_EOF then "at end"
     else if token.type = TOKEN_ERROR then ""
     else " at " ++ sq ++ token.lexeme ++ sq) ++
  ": " ++ message

/-- `errorAt` of compiler.c: in panic mode the report is dropped before
anything happens (including before `hadError` would be set); otherwise
enter panic mode, print the diagnostic, and set `hadError`. -/
def errorAt (s : CompilerState) (token : Token) (message : String) : CompilerState :=
  if s.parser.panicMode then s
  else
    { s with
      parser := { s.parser with panicMode := true, hadError := true },
      diags := s.diags ++ [tokenErrorText token message] }

/-- `error` of compiler.c: report anchored at the previous token. -/
def error (s : CompilerState) (message : String) : CompilerState :=
  errorAt s s.parser.previous message

/-- `errorAtCurrent` of compiler.c: report anchored at the current token. -/
def errorAtCurrent (s : CompilerState) (message : String) : CompilerState :=
  errorAt s s.parser.current message

/-- The scanner's end-of-input token.  Modelled from the spec: the
external scanner, once the source is exhausted, answers every further
request with an end-of-input token. -/
def eofToken : Token := ⟨TOKEN_EOF, "", 0⟩

/-- The `for(;;)` loop of `advance`: pull tokens from the scanner into
`parser.current`, reporting and skipping every error token, until a
non-error token arrives. -/
def advanceAux : List Token → CompilerState → CompilerState
  | [], s => { s with parser := { s.parser with current := eofToken }, tokens := [] }
  | t :: rest, s =>
      let s1 : CompilerState :=
        { s with parser := { s.parser with current := t }, tokens := rest }
      if t.type = TOKEN_ERROR then advanceAux rest (errorAtCurrent s1 t.lexeme)
      else s1

/-- `advance` of compiler.c: shift `current` into `previous`, then scan
forward to the next non-error token. -/
def advance (s : CompilerState) : CompilerState :=
  advanceAux s.tokens { s with parser := { s.parser with previous := s.parser.current } }

/-- `consume` of compiler.c. -/
def consume (s : CompilerState) (type : TokenType) (message : String) : CompilerState :=
  if s.parser.current.type = type then advance s
  else errorAtCurrent s message

/-- `emitByte` of compiler.c: write into the current chunk, attributed to
the previous token's line. -/
def emitByte (s : CompilerState) (byte : Nat) : CompilerState :=
  { s with chunk := writeChunk s.chunk byte s.parser.previous.line }

/-- `emitBytes` of compiler.c. -/
def emitBytes (s : CompilerState) (byte1 byte2 : Nat) : CompilerState :=
  emitByte (emitByte s byte1) byte2

/-- `emitReturn` of compiler.c. -/
def emitReturn (s : CompilerState) : CompilerState :=
  emitByte s OP_RETURN

/-- `makeConstant` of compiler.c: add the value to the pool; if its index
exceeds `UINT8_MAX` report the overflow (note the C message reads
`"Too many constants is one chunk."`) and use index 0 instead. -/
def makeConstant (s : CompilerState) (value : Value) : CompilerState × Nat :=
  let (chunk, constant) := addConstant s.chunk value
  let s1 := { s with chunk := chunk }
  if constant > 255 then (error s1 "Too many constants is one chunk.", 0)
  else (s1, constant)

/-- `emitConstant` of compiler.c. -/
def emitConstant (s : CompilerState) (value : Value) : CompilerState :=
  let (s1, constant) := makeConstant s value
  emitBytes s1 OP_CONSTANT constant

/-- `endCompiler` of compiler.c (the debug disassembly is compiled out). -/
def endCompiler (s : CompilerState) : CompilerState :=
  emitReturn s

/-- `number` of compiler.c: the previous token's lexeme, read by `strtod`,
becomes a numeric constant. -/
def number (s : CompilerState) : CompilerState :=
  emitConstant s (Value.number s.parser.previous.lexeme)

/-- `string` of compiler.c: the lexeme with its two quote delimiters
stripped (`start + 1`, `length - 2`) becomes a string constant. -/
def stringAction (s : CompilerState) : CompilerState :=
  emitConstant s (Value.obj ((s.parser.previous.lexeme.drop 1).dropRight 1))

/-- `literal` of compiler.c. -/
def literal (s : CompilerState) : CompilerState :=
  match s.parser.previous.type with
  | TOKEN_FALSE => emitByte s OP_FALSE
  | TOKEN_NIL => emitByte s OP_NIL
  | TOKEN_TRUE => emitByte s OP_TRUE
  | _ => s

/-! ### The mutually recursive parse functions

`parsePrecedence`, the parse actions and the infix `while` loop are
mutually recursive in C; the recursion terminates because each descent
consumes input.  In Lean the whole mutual nest is one function,
structurally recursive on an explicit `fuel` bound on the call depth
(exhausted fuel leaves the state unchanged; `compile` passes fuel large
enough that this never happens), dispatching on a tag naming which of the
C functions is running -- the inlined-dispatch shape the design notes
describe as behaviourally identical to the C function-pointer table. -/

/-- Which of the mutually recursive compiler.c functions is executing. -/
inductive PCall where
  /-- `parsePrecedence(precedence)` -/
  | parsePrec (precedence : Nat)
  /-- the `while` loop at the end of `parsePrecedence` -/
  | infixStep (precedence : Nat)
  /-- the indirect call through a rule's prefix pointer -/
  | prefixAct (a : PrefixAction)
  /-- the indirect call through a rule's infix pointer -/
  | infixAct (a : InfixAction)
  /-- `grouping()` -/
  | groupingAct
  /-- `expression()` -/
  | exprAct
  /-- `unary()` -/
  | unaryAct
  /-- `binary()` -/
  | binaryAct
  deriving DecidableEq, Repr

/-- One body of the mutual recursion of compiler.c, by tag:

* `parsePrec p`: consume one token, run its prefix action (or report
  `"Expect expression."` if it has none), then run the infix loop;
* `infixStep p`: while the current token's table precedence is at least
  `p`, consume it and run its infix action (the `none` arm is the C call
  through a `NULL` pointer, unreachable for the bounds the code passes);
* `groupingAct`: parse an expression, then require a closing parenthesis;
* `exprAct`: parse at the bottom (assignment) precedence bound;
* `unaryAct`: compile the operand at `PREC_UNARY`, then emit the
  operator's opcode;
* `binaryAct`: compile the right operand one precedence level above the
  operator's table precedence, then emit the operator's instruction(s). -/
def exec : Nat → PCall → CompilerState → CompilerState
  | 0, _, s => s
  | fuel + 1, c, s =>
      match c with
      | .parsePrec precedence =>
          let s1 := advance s
          match (getRule s1.parser.previous.type).prefixFn with
          | none => error s1 "Expect expression."
          | some a => exec fuel (.infixStep precedence) (exec fuel (.prefixAct a) s1)
      | .infixStep precedence =>
          if precedence ≤ (getRule s.parser.current.type).precedence then
            let s1 := advance s
            match (getRule s1.parser.previous.type).infixFn with
            | none => s1
            | some i => exec fuel (.infixStep precedence) (exec fuel (.infixAct i) s1)
          else s
      | .prefixAct .grouping => exec fuel .groupingAct s
      | .prefixAct .unary => exec fuel .unaryAct s
      | .prefixAct .number => number s
      | .prefixAct .string => stringAction s
      | .prefixAct .literal => literal s
      | .infixAct .binary => exec fuel .binaryAct s
      | .groupingAct =>
          consume (exec fuel .exprAct s) TOKEN_RIGHT_PAREN
            ("Expect " ++ sq ++ ")" ++ sq ++ " after expression.")
      | .exprAct => exec fuel (.parsePrec PREC_ASSIGNMENT) s
      | .unaryAct =>
          let operatorType := s.parser.previous.type
          let s1 := exec fuel (.parsePrec PREC_UNARY) s
          match operatorType with
          | TOKEN_BANG => emitByte s1 OP_NOT
          | TOKEN_MINUS => emitByte s1 OP_NEGATE
          | _ => s1
      | .binaryAct =>
          let operatorType := s.parser.previous.type
          let rule := getRule operatorType
          let s1 := exec fuel (.parsePrec (rule.precedence + 1)) s
          match operatorType with
          | TOKEN_BANG_EQUAL => emitBytes s1 OP_EQUAL OP_NOT
          | TOKEN_EQUAL_EQUAL => emitByte s1 OP_EQUAL
          | TOKEN_GREATER => emitByte s1 OP_GREATER
          | TOKEN_GREATER_EQUAL => emitBytes s1 OP_LESS OP_NOT
          | TOKEN_LESS => emitByte s1 OP_LESS
          | TOKEN_LESS_EQUAL => emitBytes s1 OP_GREATER OP_NOT
          | TOKEN_PLUS => emitByte s1 OP_ADD
          | TOKEN_MINUS => emitByte s1 OP_SUBTRACT
          | TOKEN_STAR => emitByte s1 OP_MULTIPLY
          | TOKEN_SLASH => emitByte s1 OP_DIVIDE
          | _ => s1

/-- `parsePrecedence` of compiler.c. -/
def parsePrecedence (fuel precedence : Nat) (s : CompilerState) : CompilerState :=
  exec fuel (.parsePrec precedence) s

/-- `grouping` of compiler.c. -/
def grouping (fuel : Nat) (s : CompilerState) : CompilerState :=
  exec fuel .groupingAct s

/-- `unary` of compiler.c. -/
def unary (fuel : Nat) (s : CompilerState) : CompilerState :=
  exec fuel .unaryAct s

/-- `binary` of compiler.c. -/
def binary (fuel : Nat) (s : CompilerState) : CompilerState :=
  exec fuel .binaryAct s

/-- `expression` of compiler.c. -/
def expression (fuel : Nat) (s : CompilerState) : CompilerState :=
  exec fuel .exprAct s

/-- The state a compile starts from: fresh scanner output, empty chunk,
no diagnostics, error flags cleared.  The globals' startup token value is
never observed (it is overwritten before any read); `eofToken` fills the
slot. -/
def initState (tokens : List Token) : CompilerState :=
  ⟨⟨eofToken, eofToken, false, false⟩, initChunk, tokens, []⟩

/-- `compile` of compiler.c: prime the parser, parse one expression,
require end-of-input, then emit the final return.  The fuel bound
`8 * |tokens| + 16` exceeds the call depth reachable from a stream of
that length, so the parse always runs to completion. -/
def compile (tokens : List Token) : CompilerState :=
  let fuel := 8 * tokens.length + 16
  let s := advance (initState tokens)
  let s1 := expression fuel s
  let s2 := consume s1 TOKEN_EOF "Expect end of expression."
  endCompiler s2

/-- The boolean `compile` returns: `!parser.hadError`. -/
def compileSuccess (tokens : List Token) : Bool :=
  !(compile tokens).parser.hadError

/-! ## The line index, byte by byte

`flattenLines` expands the run-length-encoded index into one line value
per instruction byte; `sumCounts` is the total of the recorded
run-lengths; `writeAll` replays a whole sequence of `writeChunk` calls. -/

/-- One source-line value per instruction byte, in buffer order. -/
def flattenLines (ls : List Line) : List Int :=
  ls.flatMap (fun l => List.replicate l.count l.line)

/-- The sum of all recorded run-lengths. -/
def sumCounts (ls : List Line) : Nat :=
  (ls.map Line.count).sum

/-- Replay a list of `(byte, line)` writes through `writeChunk`. -/
def writeAll (c : Chunk) (ws : List (Nat × Int)) : Chunk :=
  ws.foldl (fun ch w => writeChunk ch w.1 w.2) c

lemma bumpLast_concat (xs : List Line) (e : Line) :
    bumpLast (xs ++ [e]) = xs ++ [⟨e.line, e.count + 1⟩] := by
  induction xs with
  | nil => rfl
  | cons x xs ih =>
      cases xs with
      | nil => rfl
      | cons y ys => simpa [bumpLast] using ih

lemma flattenLines_append (xs ys : List Line) :
    flattenLines (xs ++ ys) = flattenLines xs ++ flattenLines ys := by
  simp [flattenLines]

lemma writeChunk_code (c : Chunk) (b : Nat) (l : Int) :
    (writeChunk c b l).code = c.code ++ [b] := rfl

/-- Complete description of how one `writeChunk` call changes the line
index: a fresh `(line, 1)` pair when the index is empty or the line is
new, otherwise the last pair's run-length grows by one. -/
lemma writeChunk_lines (c : Chunk) (b : Nat) (l : Int) :
    (writeChunk c b l).lines =
      if c.lines = [] ∨ l ≠ (c.lines.getLastD ⟨0, 0⟩).line then
        c.lines ++ [⟨l, 1⟩]
      else
        c.lines.dropLast ++
          [⟨(c.lines.getLastD ⟨0, 0⟩).line, (c.lines.getLastD ⟨0, 0⟩).count + 1⟩] := by
  obtain h | ⟨xs, e, hxe⟩ := List.eq_nil_or_concat c.lines
  · simp [writeChunk, h, bumpLast]
  · rw [List.concat_eq_append] at hxe
    by_cases hl : l = e.line
    · simp [writeChunk, hxe, List.getLastD_concat, hl, bumpLast_concat,
        List.dropLast_concat]
    · have hcond : c.lines = [] ∨ l ≠ (c.lines.getLastD ⟨0, 0⟩).line := by
        refine Or.inr ?h
        rw [hxe, List.getLastD_concat]
        exact hl
      simp only [writeChunk, if_pos hcond]
      rw [hxe]
      simpa using bumpLast_concat (xs ++ [e]) ⟨l, 0⟩

lemma writeChunk_flatten (c : Chunk) (b : Nat) (l : Int) :
    flattenLines (writeChunk c b l).lines = flattenLines c.lines ++ [l] := by
  rw [writeChunk_lines]
  split
  · simp [flattenLines_append, flattenLines]
  · rename_i h
    push_neg at h
    obtain ⟨hne, hl⟩ := h
    obtain ⟨xs, e, hxe⟩ := (List.eq_nil_or_concat c.lines).resolve_left hne
    rw [List.concat_eq_append] at hxe
    rw [hxe, List.getLastD_concat] at hl ⊢
    rw [List.dropLast_concat]
    simp [flattenLines_append, flattenLines, List.replicate_succ', hl]

lemma writeAll_code (ws : List (Nat × Int)) :
    ∀ c : Chunk, (writeAll c ws).code = c.code ++ ws.map Prod.fst := by
  induction ws with
  | nil => simp [writeAll]
  | cons w ws ih =>
      intro c
      simpa [writeAll, writeChunk_code] using ih (writeChunk c w.1 w.2)

lemma writeAll_flatten (ws : List (Nat × Int)) :
    ∀ c : Chunk, flattenLines (writeAll c ws).lines
      = flattenLines c.lines ++ ws.map Prod.snd := by
  induction ws with
  | nil => simp [writeAll]
  | cons w ws ih =>
      intro c
      simpa [writeAll, writeChunk_flatten] using ih (writeChunk c w.1 w.2)

lemma getLineGo_flatten (ls : List Line) :
    ∀ i : Nat, getLineGo ls (i + 1) = (flattenLines ls)[i]? := by
  induction ls with
  | nil => intro i; simp [getLineGo, flattenLines]
  | cons e rest ih =>
      intro i
      have hflat : flattenLines (e :: rest)
          = List.replicate e.count e.line ++ flattenLines rest := by
        simp [flattenLines]
      by_cases h : i < e.count
      · have hge : e.count ≥ i + 1 := h
        rw [hflat, getLineGo, if_pos hge,
          List.getElem?_append_left (by simpa using h)]
        simp [List.getElem?_replicate, h]
      · have hlt : ¬ e.count ≥ i + 1 := by omega
        have hsub : i + 1 - e.count = (i - e.count) + 1 := by omega
        rw [hflat, getLineGo, if_neg hlt, hsub, ih,
          List.getElem?_append_right (by simp; omega)]
        simp

lemma sumCounts_eq_length_flatten (ls : List Line) :
    sumCounts ls = (flattenLines ls).length := by
  induction ls with
  | nil => rfl
  | cons e rest ih => simp [sumCounts, flattenLines] at ih ⊢; omega

/-- The per-offset lines of a chunk built from scratch are exactly the
lines of the writes, in order. -/
lemma writeAll_initChunk_flatten (ws : List (Nat × Int)) :
    flattenLines (writeAll initChunk ws).lines = ws.map Prod.snd := by
  simpa [initChunk, flattenLines] using writeAll_flatten ws initChunk

/-- C5: for every byte offset actually written (offset `i < #writes` of a
chunk built from the empty state by a sequence of `writeChunk` calls),
`getLine` returns exactly the line passed to `writeChunk` when that byte
was appended. -/
theorem c5_getLine_roundtrip (ws : List (Nat × Int)) (i : Nat)
    (h : i < ws.length) :
    getLine (writeAll initChunk ws) i = some (ws.get ⟨i, h⟩).2 := by
  rw [getLine, getLineGo_flatten, writeAll_initChunk_flatten]
  simp [List.getElem?_eq_getElem, h]

/-- Witness for C5 at a concrete multi-line write sequence: three bytes
on line 4, one on line 9, two on line 11 (a run longer than one byte, a
line change, and a gap between lines). -/
theorem c5_getLine_roundtrip_witness :
    getLine (writeAll initChunk
      [(0, 4), (1, 4), (2, 4), (3, 9), (4, 11), (5, 11)]) 3 = some 9 := by
  have h : 3 < ([((0 : Nat), (4 : Int)), (1, 4), (2, 4), (3, 9), (4, 11), (5, 11)]).length := by
    decide
  simpa using c5_getLine_roundtrip
    [(0, 4), (1, 4), (2, 4), (3, 9), (4, 11), (5, 11)] 3 h

/-- C6: after any sequence of `writeChunk` calls from the initial empty
chunk the recorded run-lengths sum to the byte count; and a single
`writeChunk` appends a fresh pair exactly when the index is empty or the
written line differs from the last recorded pair, otherwise it increments
the last pair's run-length. -/
theorem c6_line_index_invariant :
    (∀ ws : List (Nat × Int),
      sumCounts (writeAll initChunk ws).lines
        = (writeAll initChunk ws).code.length) ∧
    (∀ (c : Chunk) (b : Nat) (l : Int),
      (writeChunk c b l).lines =
        if c.lines = [] ∨ l ≠ (c.lines.getLastD ⟨0, 0⟩).line then
          c.lines ++ [⟨l, 1⟩]
        else
          c.lines.dropLast ++
            [⟨(c.lines.getLastD ⟨0, 0⟩).line,
              (c.lines.getLastD ⟨0, 0⟩).count + 1⟩]) := by
  constructor
  · intro ws
    rw [sumCounts_eq_length_flatten, writeAll_initChunk_flatten,
      writeAll_code, List.length_append]
    simp [initChunk]
  · exact writeChunk_lines

/-- C7 (the defect the spec flags): `getLine` queried at an offset not
covered by any recorded run walks past the end of the pair list without
executing a return statement.  In the model this is the `none` result; in
the C code it is a fall-through off the end of a non-void function.
Shown on the empty chunk at offset 0 and on a one-byte chunk at offset 1
(equal to its byte count). -/
theorem c7_getLine_falls_through :
    getLine initChunk 0 = none ∧
    getLine (writeChunk initChunk OP_RETURN 7) 1 = none := by
  constructor <;> rfl

/-! ## Error-flag bookkeeping

`hadError` is set exactly by the first (non-suppressed) `errorAt` call,
which is also exactly what prints the first diagnostic line; and panic
mode is only ever entered together with `hadError`.  `ErrInv` packages
this and is preserved by every compiler operation. -/

/-- `hadError` is set iff at least one diagnostic was printed, and panic
mode implies `hadError`. -/
def ErrInv (s : CompilerState) : Prop :=
  (s.parser.hadError = true ↔ s.diags ≠ []) ∧
  (s.parser.panicMode = true → s.parser.hadError = true)

lemma errInv_errorAt {s : CompilerState} (t : Token) (m : String)
    (h : ErrInv s) : ErrInv (errorAt s t m) := by
  unfold errorAt
  split
  · exact h
  · refine ⟨by simp, by simp⟩

lemma errInv_error {s : CompilerState} (m : String)
    (h : ErrInv s) : ErrInv (error s m) :=
  errInv_errorAt _ _ h

lemma errInv_errorAtCurrent {s : CompilerState} (m : String)
    (h : ErrInv s) : ErrInv (errorAtCurrent s m) :=
  errInv_errorAt _ _ h

lemma errInv_advanceAux :
    ∀ (toks : List Token) {s : CompilerState}, ErrInv s → ErrInv (advanceAux toks s)
  | [], s, h => h
  | t :: rest, s, h => by
      unfold advanceAux
      split
      · exact errInv_advanceAux rest (errInv_errorAtCurrent _ h)
      · exact h

lemma errInv_advance {s : CompilerState} (h : ErrInv s) : ErrInv (advance s) :=
  errInv_advanceAux _ h

lemma errInv_consume {s : CompilerState} (t : TokenType) (m : String)
    (h : ErrInv s) : ErrInv (consume s t m) := by
  unfold consume
  split
  · exact errInv_advance h
  · exact errInv_errorAtCurrent _ h

lemma errInv_emitByte {s : CompilerState} (b : Nat)
    (h : ErrInv s) : ErrInv (emitByte s b) := h

lemma errInv_emitBytes {s : CompilerState} (b1 b2 : Nat)
    (h : ErrInv s) : ErrInv (emitBytes s b1 b2) := h

lemma errInv_makeConstant {s : CompilerState} (v : Value)
    (h : ErrInv s) : ErrInv (makeConstant s v).1 := by
  unfold makeConstant
  simp only [addConstant]
  split
  · exact errInv_error _ h
  · exact h

lemma errInv_emitConstant {s : CompilerState} (v : Value)
    (h : ErrInv s) : ErrInv (emitConstant s v) :=
  errInv_emitBytes _ _ (errInv_makeConstant v h)

lemma errInv_number {s : CompilerState} (h : ErrInv s) : ErrInv (number s) :=
  errInv_emitConstant _ h

lemma errInv_stringAction {s : CompilerState} (h : ErrInv s) :
    ErrInv (stringAction s) :=
  errInv_emitConstant _ h

lemma errInv_literal {s : CompilerState} (h : ErrInv s) : ErrInv (literal s) := by
  unfold literal
  split <;> first
    | exact errInv_emitByte _ h
    | exact h

lemma errInv_exec :
    ∀ (fuel : Nat) (c : PCall) {s : CompilerState}, ErrInv s → ErrInv (exec fuel c s) := by
  intro fuel
  induction fuel with
  | zero => intro c s h; exact h
  | succ fuel ih =>
      intro c s h
      cases c with
      | parsePrec p =>
          simp only [exec]
          split
          · exact errInv_error _ (errInv_advance h)
          · exact ih _ (ih _ (errInv_advance h))
      | infixStep p =>
          simp only [exec]
          split
          · split
            · exact errInv_advance h
            · exact ih _ (ih _ (errInv_advance h))
          · exact h
      | prefixAct a =>
          cases a with
          | grouping => exact ih _ h
          | unary => exact ih _ h
          | number => exact errInv_number h
          | string => exact errInv_stringAction h
          | literal => exact errInv_literal h
      | infixAct a =>
          cases a with
          | binary => exact ih _ h
      | groupingAct => exact errInv_consume _ _ (ih _ h)
      | exprAct => exact ih _ h
      | unaryAct =>
          simp only [exec]
          split <;> first
            | exact errInv_emitByte _ (ih _ h)
            | exact ih _ h
      | binaryAct =>
          simp only [exec]
          split <;> first
            | exact errInv_emitBytes _ _ (ih _ h)
            | exact errInv_emitByte _ (ih _ h)
            | exact ih _ h

lemma errInv_compile (ts : List Token) : ErrInv (compile ts) := by
  have h0 : ErrInv (initState ts) := by
    refine ⟨by simp [initState], by simp [initState]⟩
  exact errInv_emitByte _
    (errInv_consume _ _ (errInv_exec _ _ (errInv_advance h0)))

/-! ## Concrete token streams used in the claims -/

/-- A number token on line 1. -/
def numberToken (s : String) : Token := ⟨TOKEN_NUMBER, s, 1⟩

/-- An arbitrary token on line 1. -/
def tokenOn1 (t : TokenType) (s : String) : Token := ⟨t, s, 1⟩

/-- The end-of-input token on line 1. -/
def eofOn1 : Token := ⟨TOKEN_EOF, "", 1⟩

/-- C1: `compile` always terminates the chunk with `OP_RETURN` (last byte
of the emitted code, for every input token stream, errors included);
the returned success flag is true exactly when no error was reported
(equivalently, when no diagnostic was printed); and when the token after
the parsed expression is not end-of-input a compile error
`"Expect end of expression."` is reported, as on the stream `1 2`, while
a single well-formed expression such as `7` compiles successfully. -/
theorem c1_compile_contract :
    (∀ ts : List Token, (compile ts).chunk.code.getLast? = some OP_RETURN) ∧
    (∀ ts : List Token, compileSuccess ts = true ↔ (compile ts).diags = []) ∧
    ((compile [numberToken "1", numberToken "2", eofOn1]).parser.hadError = true ∧
      (compile [numberToken "1", numberToken "2", eofOn1]).diags
        = ["[line 1] Error at " ++ sq ++ "2" ++ sq ++ ": Expect end of expression."]) ∧
    (compileSuccess [numberToken "7", eofOn1] = true ∧
      (compile [numberToken "7", eofOn1]).chunk.code = [OP_CONSTANT, 0, OP_RETURN]) := by
  refine ⟨?lastByte, ?success, ?relying, ?ok⟩
  · intro ts
    show ((endCompiler _).chunk.code).getLast? = some OP_RETURN
    rw [show ∀ s : CompilerState, (endCompiler s).chunk.code
          = s.chunk.code ++ [OP_RETURN] from fun _ => rfl]
    exact List.getLast?_concat _
  · intro ts
    obtain ⟨h1, -⟩ := errInv_compile ts
    unfold compileSuccess
    cases hE : (compile ts).parser.hadError with
    | false =>
        simp only [Bool.not_false]
        constructor
        · intro _
          by_contra hne
          rw [h1.mpr hne] at hE
          cases hE
        · intro _; trivial
    | true =>
        simp only [Bool.not_true]
        constructor
        · intro hfalse; cases hfalse
        · intro hd
          exact absurd (h1.mp hE) (by simp [hd])
  · constructor
    · decide
    · decide
  · constructor
    · decide
    · decide

/-! ## Panic-mode suppression and the advance loop -/

lemma errorAt_of_panicMode {s : CompilerState} (t : Token) (m : String)
    (h : s.parser.panicMode = true) : errorAt s t m = s := by
  unfold errorAt
  rw [if_pos h]

lemma errorAt_parser_previous (s : CompilerState) (t : Token) (m : String) :
    (errorAt s t m).parser.previous = s.parser.previous := by
  unfold errorAt
  split <;> rfl

lemma errorAt_tokens (s : CompilerState) (t : Token) (m : String) :
    (errorAt s t m).tokens = s.tokens := by
  unfold errorAt
  split <;> rfl

lemma advanceAux_current_ne :
    ∀ (toks : List Token) (s : CompilerState),
      (advanceAux toks s).parser.current.type ≠ TOKEN_ERROR
  | [], s => by
      simp [advanceAux, eofToken]
  | t :: rest, s => by
      unfold advanceAux
      split
      · exact advanceAux_current_ne rest _
      · simpa using by assumption

lemma advanceAux_previous :
    ∀ (toks : List Token) (s : CompilerState),
      (advanceAux toks s).parser.previous = s.parser.previous
  | [], s => rfl
  | t :: rest, s => by
      unfold advanceAux
      split
      · rw [advanceAux_previous rest]
        simp only [errorAtCurrent]
        rw [errorAt_parser_previous]
      · rfl

lemma advanceAux_tokens :
    ∀ (toks : List Token) (s : CompilerState),
      (advanceAux toks s).tokens
        = (toks.dropWhile (fun t => t.type == TOKEN_ERROR)).tail
  | [], s => rfl
  | t :: rest, s => by
      unfold advanceAux
      split
      · rename_i ht
        rw [advanceAux_tokens rest, List.dropWhile_cons_of_pos (by simpa using ht)]
      · rename_i ht
        rw [List.dropWhile_cons_of_neg (by simpa using ht)]
        rfl

lemma advanceAux_diags_of_panicMode :
    ∀ (toks : List Token) {s : CompilerState}, s.parser.panicMode = true →
      (advanceAux toks s).diags = s.diags
  | [], s, _ => rfl
  | t :: rest, s, h => by
      unfold advanceAux
      split
      · refine Eq.trans (advanceAux_diags_of_panicMode rest ?hp) ?hb
        case hp => simp [errorAtCurrent, errorAt, h]
        case hb => simp [errorAtCurrent, errorAt, h]
      · rfl

/-- C10: after `advance` returns, the parser's current token is never a
scanner error token; the token previously current becomes `previous`
untouched by the error handling; the entire leading run of error tokens
(plus the one non-error token that ends it) has been consumed from the
stream; and a leading error token is reported through the usual diagnostic
channel (one line, unless suppressed by panic mode). -/
theorem c10_advance_no_error_token :
    (∀ s : CompilerState, (advance s).parser.current.type ≠ TOKEN_ERROR) ∧
    (∀ s : CompilerState, (advance s).parser.previous = s.parser.current) ∧
    (∀ s : CompilerState,
      (advance s).tokens
        = (s.tokens.dropWhile (fun t => t.type == TOKEN_ERROR)).tail) ∧
    (∀ (s : CompilerState) (t : Token) (rest : List Token),
      s.parser.panicMode = false → s.tokens = t :: rest →
      t.type = TOKEN_ERROR →
      (advance s).diags = s.diags ++ [tokenErrorText t t.lexeme]) := by
  refine ⟨?cur, ?prev, ?toks, ?report⟩
  · intro s
    exact advanceAux_current_ne _ _
  · intro s
    rw [advance, advanceAux_previous]
  · intro s
    rw [advance, advanceAux_tokens]
  · intro s t rest hp htoks ht
    unfold advance
    rw [htoks]
    unfold advanceAux
    rw [if_pos ht]
    refine Eq.trans (advanceAux_diags_of_panicMode rest ?hp2) ?hd
    case hp2 => simp [errorAtCurrent, errorAt, hp]
    case hd => simp [errorAtCurrent, errorAt, hp]

/-- Witness for C10 at a concrete stream headed by an error token. -/
theorem c10_advance_no_error_token_witness :
    (advance (initState [tokenOn1 TOKEN_ERROR "Unexpected character.", eofOn1])).diags
      = (initState [tokenOn1 TOKEN_ERROR "Unexpected character.", eofOn1]).diags
        ++ [tokenErrorText (tokenOn1 TOKEN_ERROR "Unexpected character.")
              (tokenOn1 TOKEN_ERROR "Unexpected character.").lexeme] :=
  c10_advance_no_error_token.2.2.2 _ _ [eofOn1] rfl rfl rfl

/-- C8: once panic mode is set, `errorAt` drops the report entirely (the
state, diagnostics included, is unchanged; `hadError` keeps the value it
already had, so the compile stays marked failed); concretely the
double-error input `(1 +` yields exactly one diagnostic line. -/
theorem c8_panic_mode_suppression :
    (∀ (s : CompilerState) (t : Token) (m : String),
      s.parser.panicMode = true → errorAt s t m = s) ∧
    ((compile [tokenOn1 TOKEN_LEFT_PAREN "(", numberToken "1",
        tokenOn1 TOKEN_PLUS "+", eofOn1]).diags.length = 1 ∧
      (compile [tokenOn1 TOKEN_LEFT_PAREN "(", numberToken "1",
        tokenOn1 TOKEN_PLUS "+", eofOn1]).parser.hadError = true) := by
  refine ⟨?gen, ?conc⟩
  · intro s t m hp
    exact errorAt_of_panicMode t m hp
  · exact ⟨by decide, by decide⟩

/-- Witness for C8: a suppressed report at a concrete panicking state. -/
theorem c8_panic_mode_suppression_witness :
    errorAt ⟨⟨eofToken, eofToken, true, true⟩, initChunk, [], ["d"]⟩ eofToken "m"
      = ⟨⟨eofToken, eofToken, true, true⟩, initChunk, [], ["d"]⟩ :=
  c8_panic_mode_suppression.1 _ _ _ rfl

/-- C9 (the formatting slip): a diagnostic anchored at an ordinary token
reads `[line N] Error at 'X': message` as the claim states, but the
end-of-input branch of `errorAt` prints the bare string `"at end"`, so an
EOF-anchored diagnostic reads `[line N] Errorat end: message`, with no
space between `Error` and `at`. -/
theorem c9_diagnostic_format :
    (compile [numberToken "1", tokenOn1 TOKEN_PLUS "+", eofOn1]).diags
      = ["[line 1] Errorat end: Expect expression."] ∧
    (compile [numberToken "1", numberToken "2", eofOn1]).diags
      = ["[line 1] Error at " ++ sq ++ "2" ++ sq ++ ": Expect end of expression."] := by
  constructor
  · decide
  · decide

/-! ## Binary operators: associativity and opcode lowering -/

set_option maxHeartbeats 4000000 in
/-- C2: a binary operator's right operand is compiled at exactly one
precedence level above the operator's table precedence (shown for `-`:
`binary` recurses at `PREC_TERM + 1` before emitting `OP_SUBTRACT`), so
equal-precedence operators associate to the left: `1 - 2 - 3` compiles
to the very instruction sequence of `(1 - 2) - 3` and not to the
sequence of `1 - (2 - 3)`. -/
theorem c2_left_associativity :
    (∀ (fuel : Nat) (s : CompilerState),
      s.parser.previous.type = TOKEN_MINUS →
        binary (fuel + 1) s
          = emitByte (parsePrecedence fuel (PREC_TERM + 1) s) OP_SUBTRACT) ∧
    ((compile [numberToken "1", tokenOn1 TOKEN_MINUS "-", numberToken "2",
          tokenOn1 TOKEN_MINUS "-", numberToken "3", eofOn1]).chunk.code
        = (compile [tokenOn1 TOKEN_LEFT_PAREN "(", numberToken "1",
            tokenOn1 TOKEN_MINUS "-", numberToken "2",
            tokenOn1 TOKEN_RIGHT_PAREN ")", tokenOn1 TOKEN_MINUS "-",
            numberToken "3", eofOn1]).chunk.code ∧
      (compile [numberToken "1", tokenOn1 TOKEN_MINUS "-", numberToken "2",
          tokenOn1 TOKEN_MINUS "-", numberToken "3", eofOn1]).chunk.code
        = [OP_CONSTANT, 0, OP_CONSTANT, 1, OP_SUBTRACT,
           OP_CONSTANT, 2, OP_SUBTRACT, OP_RETURN] ∧
      (compile [numberToken "1", tokenOn1 TOKEN_MINUS "-",
          tokenOn1 TOKEN_LEFT_PAREN "(", numberToken "2",
          tokenOn1 TOKEN_MINUS "-", numberToken "3",
          tokenOn1 TOKEN_RIGHT_PAREN ")", eofOn1]).chunk.code
        = [OP_CONSTANT, 0, OP_CONSTANT, 1, OP_CONSTANT, 2,
           OP_SUBTRACT, OP_SUBTRACT, OP_RETURN]) ∧
    [OP_CONSTANT, 0, OP_CONSTANT, 1, OP_SUBTRACT, OP_CONSTANT, 2, OP_SUBTRACT, OP_RETURN]
      ≠ [OP_CONSTANT, 0, OP_CONSTANT, 1, OP_CONSTANT, 2, OP_SUBTRACT, OP_SUBTRACT, OP_RETURN] := by
  refine ⟨?gen, ?conc, by decide⟩
  · intro fuel s h
    simp [binary, parsePrecedence, exec, h, getRule]
  · have h1 : (compile [numberToken "1", tokenOn1 TOKEN_MINUS "-", numberToken "2",
          tokenOn1 TOKEN_MINUS "-", numberToken "3", eofOn1]).chunk.code
        = [OP_CONSTANT, 0, OP_CONSTANT, 1, OP_SUBTRACT,
           OP_CONSTANT, 2, OP_SUBTRACT, OP_RETURN] := by decide
    have h2 : (compile [tokenOn1 TOKEN_LEFT_PAREN "(", numberToken "1",
            tokenOn1 TOKEN_MINUS "-", numberToken "2",
            tokenOn1 TOKEN_RIGHT_PAREN ")", tokenOn1 TOKEN_MINUS "-",
            numberToken "3", eofOn1]).chunk.code
        = [OP_CONSTANT, 0, OP_CONSTANT, 1, OP_SUBTRACT,
           OP_CONSTANT, 2, OP_SUBTRACT, OP_RETURN] := by decide
    have h3 : (compile [numberToken "1", tokenOn1 TOKEN_MINUS "-",
          tokenOn1 TOKEN_LEFT_PAREN "(", numberToken "2",
          tokenOn1 TOKEN_MINUS "-", numberToken "3",
          tokenOn1 TOKEN_RIGHT_PAREN ")", eofOn1]).chunk.code
        = [OP_CONSTANT, 0, OP_CONSTANT, 1, OP_CONSTANT, 2,
           OP_SUBTRACT, OP_SUBTRACT, OP_RETURN] := by decide
    exact ⟨h1.trans h2.symm, h1, h3⟩

/-- Witness for C2 at a concrete state whose previous token is `-`. -/
theorem c2_left_associativity_witness :
    binary 1 ⟨⟨eofToken, tokenOn1 TOKEN_MINUS "-", false, false⟩, initChunk, [], []⟩
      = emitByte (parsePrecedence 0 (PREC_TERM + 1)
          ⟨⟨eofToken, tokenOn1 TOKEN_MINUS "-", false, false⟩, initChunk, [], []⟩)
          OP_SUBTRACT :=
  c2_left_associativity.1 0 _ rfl

/-- C3: `!=` lowers to `OP_EQUAL` immediately followed by `OP_NOT`, `>=`
to `OP_LESS` then `OP_NOT`, `<=` to `OP_GREATER` then `OP_NOT`, while
`==`, `>`, `<` emit their single dedicated opcode — both as a general
fact about `binary` (no other instruction is emitted for these operators;
the instruction set has no not-equal, greater-or-equal or less-or-equal
opcode at all) and on concrete compiles. -/
theorem c3_comparison_lowering :
    (∀ (fuel : Nat) (s : CompilerState),
      (s.parser.previous.type = TOKEN_BANG_EQUAL →
        binary (fuel + 1) s
          = emitBytes (parsePrecedence fuel (PREC_EQUALITY + 1) s) OP_EQUAL OP_NOT) ∧
      (s.parser.previous.type = TOKEN_GREATER_EQUAL →
        binary (fuel + 1) s
          = emitBytes (parsePrecedence fuel (PREC_COMPARISON + 1) s) OP_LESS OP_NOT) ∧
      (s.parser.previous.type = TOKEN_LESS_EQUAL →
        binary (fuel + 1) s
          = emitBytes (parsePrecedence fuel (PREC_COMPARISON + 1) s) OP_GREATER OP_NOT) ∧
      (s.parser.previous.type = TOKEN_EQUAL_EQUAL →
        binary (fuel + 1) s
          = emitByte (parsePrecedence fuel (PREC_EQUALITY + 1) s) OP_EQUAL) ∧
      (s.parser.previous.type = TOKEN_GREATER →
        binary (fuel + 1) s
          = emitByte (parsePrecedence fuel (PREC_COMPARISON + 1) s) OP_GREATER) ∧
      (s.parser.previous.type = TOKEN_LESS →
        binary (fuel + 1) s
          = emitByte (parsePrecedence fuel (PREC_COMPARISON + 1) s) OP_LESS)) ∧
    ((compile [numberToken "1", tokenOn1 TOKEN_BANG_EQUAL "!=", numberToken "2", eofOn1]).chunk.code
        = [OP_CONSTANT, 0, OP_CONSTANT, 1, OP_EQUAL, OP_NOT, OP_RETURN] ∧
      (compile [numberToken "1", tokenOn1 TOKEN_GREATER_EQUAL ">=", numberToken "2", eofOn1]).chunk.code
        = [OP_CONSTANT, 0, OP_CONSTANT, 1, OP_LESS, OP_NOT, OP_RETURN] ∧
      (compile [numberToken "1", tokenOn1 TOKEN_LESS_EQUAL "<=", numberToken "2", eofOn1]).chunk.code
        = [OP_CONSTANT, 0, OP_CONSTANT, 1, OP_GREATER, OP_NOT, OP_RETURN] ∧
      (compile [numberToken "1", tokenOn1 TOKEN_EQUAL_EQUAL "==", numberToken "2", eofOn1]).chunk.code
        = [OP_CONSTANT, 0, OP_CONSTANT, 1, OP_EQUAL, OP_RETURN] ∧
      (compile [numberToken "1", tokenOn1 TOKEN_GREATER ">", numberToken "2", eofOn1]).chunk.code
        = [OP_CONSTANT, 0, OP_CONSTANT, 1, OP_GREATER, OP_RETURN] ∧
      (compile [numberToken "1", tokenOn1 TOKEN_LESS "<", numberToken "2", eofOn1]).chunk.code
        = [OP_CONSTANT, 0, OP_CONSTANT, 1, OP_LESS, OP_RETURN]) := by
  constructor
  · intro fuel s
    refine ⟨?_, ?_, ?_, ?_, ?_, ?_⟩ <;> intro h <;>
      simp [binary, parsePrecedence, exec, h, getRule]
  · exact ⟨by decide, by decide, by decide, by decide, by decide, by decide⟩

/-- Witness for C3 at concrete states whose previous token is each
comparison operator. -/
theorem c3_comparison_lowering_witness :
    (binary 1 ⟨⟨eofToken, tokenOn1 TOKEN_BANG_EQUAL "!=", false, false⟩, initChunk, [], []⟩
      = emitBytes (parsePrecedence 0 (PREC_EQUALITY + 1)
          ⟨⟨eofToken, tokenOn1 TOKEN_BANG_EQUAL "!=", false, false⟩, initChunk, [], []⟩)
          OP_EQUAL OP_NOT) ∧
    (binary 1 ⟨⟨eofToken, tokenOn1 TOKEN_GREATER_EQUAL ">=", false, false⟩, initChunk, [], []⟩
      = emitBytes (parsePrecedence 0 (PREC_COMPARISON + 1)
          ⟨⟨eofToken, tokenOn1 TOKEN_GREATER_EQUAL ">=", false, false⟩, initChunk, [], []⟩)
          OP_LESS OP_NOT) ∧
    (binary 1 ⟨⟨eofToken, tokenOn1 TOKEN_LESS_EQUAL "<=", false, false⟩, initChunk, [], []⟩
      = emitBytes (parsePrecedence 0 (PREC_COMPARISON + 1)
          ⟨⟨eofToken, tokenOn1 TOKEN_LESS_EQUAL "<=", false, false⟩, initChunk, [], []⟩)
          OP_GREATER OP_NOT) ∧
    (binary 1 ⟨⟨eofToken, tokenOn1 TOKEN_EQUAL_EQUAL "==", false, false⟩, initChunk, [], []⟩
      = emitByte (parsePrecedence 0 (PREC_EQUALITY + 1)
          ⟨⟨eofToken, tokenOn1 TOKEN_EQUAL_EQUAL "==", false, false⟩, initChunk, [], []⟩)
          OP_EQUAL) ∧
    (binary 1 ⟨⟨eofToken, tokenOn1 TOKEN_GREATER ">", false, false⟩, initChunk, [], []⟩
      = emitByte (parsePrecedence 0 (PREC_COMPARISON + 1)
          ⟨⟨eofToken, tokenOn1 TOKEN_GREATER ">", false, false⟩, initChunk, [], []⟩)
          OP_GREATER) ∧
    (binary 1 ⟨⟨eofToken, tokenOn1 TOKEN_LESS "<", false, false⟩, initChunk, [], []⟩
      = emitByte (parsePrecedence 0 (PREC_COMPARISON + 1)
          ⟨⟨eofToken, tokenOn1 TOKEN_LESS "<", false, false⟩, initChunk, [], []⟩)
          OP_LESS) :=
  ⟨(c3_comparison_lowering.1 0 _).1 rfl,
   (c3_comparison_lowering.1 0 _).2.1 rfl,
   (c3_comparison_lowering.1 0 _).2.2.1 rfl,
   (c3_comparison_lowering.1 0 _).2.2.2.1 rfl,
   (c3_comparison_lowering.1 0 _).2.2.2.2.1 rfl,
   (c3_comparison_lowering.1 0 _).2.2.2.2.2 rfl⟩

/-! ## Constant-pool overflow -/

/-- An expression with 257 distinct numeric literals:
`0 + 1 + 2 + ... + 256`, all on line 1. -/
def constantOverflowTokens : List Token :=
  (List.range 257).flatMap (fun i =>
    if i = 0 then [⟨TOKEN_NUMBER, toString i, 1⟩]
    else [⟨TOKEN_PLUS, "+", 1⟩, ⟨TOKEN_NUMBER, toString i, 1⟩]) ++ [⟨TOKEN_EOF, "", 1⟩]

/-! Every byte the compiler ever writes is at most 255: opcode bytes are
the fixed enumeration values and constant operands are bounded by
`makeConstant`. -/

lemma makeConstant_le (s : CompilerState) (v : Value) :
    (makeConstant s v).2 ≤ 255 := by
  by_cases hc : 255 < s.chunk.constants.length <;>
    simp [makeConstant, addConstant, hc]
  omega

/-- Every byte of the chunk's code is a valid `uint8_t` value. -/
def ByteInv (s : CompilerState) : Prop :=
  ∀ b ∈ s.chunk.code, b ≤ 255

lemma byteInv_emitByte {s : CompilerState} {b : Nat} (hb : b ≤ 255)
    (h : ByteInv s) : ByteInv (emitByte s b) := by
  intro x hx
  rcases (by simpa [emitByte, writeChunk] using hx : x ∈ s.chunk.code ∨ x = b) with hx | rfl
  · exact h x hx
  · exact hb

lemma byteInv_emitBytes {s : CompilerState} {b1 b2 : Nat}
    (h1 : b1 ≤ 255) (h2 : b2 ≤ 255) (h : ByteInv s) :
    ByteInv (emitBytes s b1 b2) :=
  byteInv_emitByte h2 (byteInv_emitByte h1 h)

lemma byteInv_errorAt {s : CompilerState} (t : Token) (m : String)
    (h : ByteInv s) : ByteInv (errorAt s t m) := by
  unfold errorAt
  split
  · exact h
  · exact h

lemma byteInv_error {s : CompilerState} (m : String)
    (h : ByteInv s) : ByteInv (error s m) :=
  byteInv_errorAt _ _ h

lemma byteInv_advanceAux :
    ∀ (toks : List Token) {s : CompilerState}, ByteInv s → ByteInv (advanceAux toks s)
  | [], s, h => h
  | t :: rest, s, h => by
      unfold advanceAux
      split
      · exact byteInv_advanceAux rest (byteInv_errorAt _ _ h)
      · exact h

lemma byteInv_advance {s : CompilerState} (h : ByteInv s) : ByteInv (advance s) :=
  byteInv_advanceAux _ h

lemma byteInv_consume {s : CompilerState} (t : TokenType) (m : String)
    (h : ByteInv s) : ByteInv (consume s t m) := by
  unfold consume
  split
  · exact byteInv_advance h
  · exact byteInv_errorAt _ _ h

lemma byteInv_makeConstant {s : CompilerState} (v : Value)
    (h : ByteInv s) : ByteInv (makeConstant s v).1 := by
  unfold makeConstant
  simp only [addConstant]
  split
  · exact byteInv_error _ h
  · exact h

lemma byteInv_emitConstant {s : CompilerState} (v : Value)
    (h : ByteInv s) : ByteInv (emitConstant s v) := by
  unfold emitConstant
  exact byteInv_emitBytes (by decide) (makeConstant_le s v) (byteInv_makeConstant v h)

lemma byteInv_number {s : CompilerState} (h : ByteInv s) : ByteInv (number s) :=
  byteInv_emitConstant _ h

lemma byteInv_stringAction {s : CompilerState} (h : ByteInv s) :
    ByteInv (stringAction s) :=
  byteInv_emitConstant _ h

lemma byteInv_literal {s : CompilerState} (h : ByteInv s) : ByteInv (literal s) := by
  unfold literal
  split <;> first
    | exact byteInv_emitByte (by decide) h
    | exact h

lemma byteInv_exec :
    ∀ (fuel : Nat) (c : PCall) {s : CompilerState}, ByteInv s → ByteInv (exec fuel c s) := by
  intro fuel
  induction fuel with
  | zero => intro c s h; exact h
  | succ fuel ih =>
      intro c s h
      cases c with
      | parsePrec p =>
          simp only [exec]
          split
          · exact byteInv_error _ (byteInv_advance h)
          · exact ih _ (ih _ (byteInv_advance h))
      | infixStep p =>
          simp only [exec]
          split
          · split
            · exact byteInv_advance h
            · exact ih _ (ih _ (byteInv_advance h))
          · exact h
      | prefixAct a =>
          cases a with
          | grouping => exact ih _ h
          | unary => exact ih _ h
          | number => exact byteInv_number h
          | string => exact byteInv_stringAction h
          | literal => exact byteInv_literal h
      | infixAct a =>
          cases a with
          | binary => exact ih _ h
      | groupingAct => exact byteInv_consume _ _ (ih _ h)
      | exprAct => exact ih _ h
      | unaryAct =>
          simp only [exec]
          split <;> first
            | exact byteInv_emitByte (by decide) (ih _ h)
            | exact ih _ h
      | binaryAct =>
          simp only [exec]
          split <;> first
            | exact byteInv_emitBytes (by decide) (by decide) (ih _ h)
            | exact byteInv_emitByte (by decide) (ih _ h)
            | exact ih _ h

lemma byteInv_compile (ts : List Token) : ByteInv (compile ts) := by
  have h0 : ByteInv (initState ts) := by
    intro b hb
    simp [initState, initChunk] at hb
  exact byteInv_emitByte (by decide)
    (byteInv_consume _ _ (byteInv_exec _ _ (byteInv_advance h0)))

set_option maxRecDepth 100000 in
set_option maxHeartbeats 400000000 in
/-- One evaluation of the 257-literal compile, read out as a tuple
(diagnostics, hadError, pool size). -/
lemma overflow_compile_eval :
    (fun s : CompilerState =>
        (s.diags, s.parser.hadError, s.chunk.constants.length))
      (compile constantOverflowTokens)
    = (["[line 1] Error at " ++ sq ++ "256" ++ sq
          ++ ": Too many constants is one chunk."], true, 257) := by
  decide

/-- C4 (behaviour as claimed, message text as in the code):
`makeConstant` substitutes index 0 whenever the pool index would exceed
255 and otherwise returns the in-range index, and no compile ever emits a
byte above 255; compiling 257 distinct numeric literals reports exactly
one overflow diagnostic — whose text reads
`"Too many constants is one chunk."`, not `"... in one chunk"` — leaves
the compile failed, and still appends all 257 pool entries. -/
theorem c4_constant_overflow :
    (∀ (s : CompilerState) (v : Value),
      (makeConstant s v).2
        = if s.chunk.constants.length > 255 then 0 else s.chunk.constants.length) ∧
    (∀ (s : CompilerState) (v : Value), (makeConstant s v).2 ≤ 255) ∧
    (∀ ts : List Token,
      (compile ts).chunk.code.all (fun b => decide (b ≤ 255)) = true) ∧
    (compile constantOverflowTokens).diags
      = ["[line 1] Error at " ++ sq ++ "256" ++ sq
          ++ ": Too many constants is one chunk."] ∧
    (compile constantOverflowTokens).parser.hadError = true ∧
    (compile constantOverflowTokens).chunk.constants.length = 257 := by
  have h := overflow_compile_eval
  simp only [Prod.mk.injEq] at h
  refine ⟨?idx, makeConstant_le, ?all, h.1, h.2.1, h.2.2⟩
  · intro s v
    by_cases hc : 255 < s.chunk.constants.length <;>
      simp [makeConstant, addConstant, hc]
  · intro ts
    rw [List.all_eq_true]
    intro b hb
    exact decide_eq_true (byteInv_compile ts b hb)

end Clox
